import Mathlib

/-!
Verification of the tokenizer / sequence-dataset / batch-collation core of the
`language-modelling-experiments` repository.  The notebook
`notebooks/1_datasets_and_dataloaders.ipynb` imports `FilmReviewSequences`,
`IMDBTokenizer`, `make_sequence_datasets` and `pad_seq2seq_data` from
`modelling.data`; that module's source is not part of the material, so the
definitions below are shallow embeddings modelled from the specification's
contracts, checked against the notebook's visible behaviour.
-/

namespace LMExp

/-- Modelled from the spec: the Tokenizer's deterministic splitting rule
(`modelling.data.IMDBTokenizer` is not in the materials): lowercasing and
whitespace splitting, dropping empty fragments. -/
def tokenize (doc : String) : List String :=
  (doc.toLower.split Char.isWhitespace).filter (fun w => w != "")

/-- Modelled from the spec: all word tokens of a corpus, in document order. -/
def corpusWords (corpus : List String) : List String :=
  corpus.flatMap tokenize

/-- Reserved word standing for the padding token. -/
def padToken : String := "<pad>"

/-- Reserved word standing for the unknown token. -/
def unkToken : String := "<unk>"

/-- Reserved id used to right-fill sequences within a batch. -/
def padding_id : Nat := 0

/-- Reserved id substituted for out-of-vocabulary words at encode time. -/
def unknown_id : Nat := 1

/-- Modelled from the spec: the deterministic id-assignment order — descending
corpus frequency, then lexicographic tie-break. `ws` is the corpus word list
used for frequency counts. -/
def vocabLe (ws : List String) (a b : String) : Prop :=
  ws.count b < ws.count a ∨ (ws.count a = ws.count b ∧ a ≤ b)

instance (ws : List String) : DecidableRel (vocabLe ws) := fun a b => by
  unfold vocabLe; exact inferInstance

/-- Modelled from the spec: the vocabulary built by `fit`
(`modelling.data.IMDBTokenizer` is not in the materials): reserved padding and
unknown tokens first, then the distinct corpus words ordered by descending
frequency with lexicographic tie-break.  A word's id is its index in this
list. -/
def fitVocab (corpus : List String) : List String :=
  padToken :: unkToken ::
    ((corpusWords corpus).dedup.filter
        (fun w => (w != padToken) && (w != unkToken))).insertionSort
      (vocabLe (corpusWords corpus))

/-- Modelled from the spec: the Tokenizer's state after `fit` — an immutable
vocabulary assigning id `i` to the word at index `i`. -/
structure IMDBTokenizer where
  vocab : List String

/-- Modelled from the spec: `fit` builds the vocabulary from a corpus. -/
def IMDBTokenizer.fit (corpus : List String) : IMDBTokenizer :=
  ⟨fitVocab corpus⟩

/-- Number of ids in the vocabulary. -/
def IMDBTokenizer.vocab_size (t : IMDBTokenizer) : Nat :=
  t.vocab.length

/-- Modelled from the spec: the word-to-id association list derived from a
vocabulary, assigning consecutive ids starting at `n`. -/
def vocabIds : List String → Nat → List (String × Nat)
  | [], _ => []
  | w :: ws, n => (w, n) :: vocabIds ws (n + 1)

/-- Modelled from the spec: map a word to its id, substituting the reserved
unknown-token id for out-of-vocabulary words. -/
def IMDBTokenizer.wordToId (t : IMDBTokenizer) (w : String) : Nat :=
  match (vocabIds t.vocab 0).lookup w with
  | some i => i
  | none => unknown_id

/-- Modelled from the spec: `encode` applies the splitting rule and maps each
word to its id; it is total. -/
def IMDBTokenizer.encode (t : IMDBTokenizer) (doc : String) : List Nat :=
  (tokenize doc).map t.wordToId

/-- Modelled from the spec: `decode` maps ids back to words and joins them with
single spaces; an id outside `[0, vocab_size)` is a precondition violation
(`InvalidTokenId`), modelled as `none`. -/
def IMDBTokenizer.decode (t : IMDBTokenizer) (ids : List Nat) : Option String :=
  if ∀ i ∈ ids, i < t.vocab_size then
    some (String.intercalate " " (ids.map (fun i => t.vocab.getD i "")))
  else none

/-- Modelled from the spec: the Sequence Dataset — an ordered collection of
Token Sequences (`modelling.data.FilmReviewSequences` is not in the
materials). -/
structure FilmReviewSequences where
  sequences : List (List Nat)

/-- Number of documents held by the dataset. -/
def FilmReviewSequences.length (ds : FilmReviewSequences) : Nat :=
  ds.sequences.length

/-- Modelled from the spec: `get(index)` returns the Sequence Pair
`(sequence[0 : L-1], sequence[1 : L])` of the document at `index`; an index
outside `[0, length())` is an `IndexOutOfRange` condition, modelled as
`none`. -/
def FilmReviewSequences.get (ds : FilmReviewSequences) (idx : Nat) :
    Option (List Nat × List Nat) :=
  match ds.sequences[idx]? with
  | some s => some (s.take (s.length - 1), s.drop 1)
  | none => none

/-- Modelled from the spec: `max_len`, the maximum input length in a batch. -/
def batchMaxLen (batch : List (List Nat × List Nat)) : Nat :=
  (batch.map (fun p => p.1.length)).foldr max 0

/-- Modelled from the spec: right-pad a sequence to length `len` with the
padding id; a sequence already at least that long is left unchanged (padding
never truncates). -/
def padTo (len : Nat) (s : List Nat) : List Nat :=
  s ++ List.replicate (len - s.length) padding_id

/-- Modelled from the spec: the batch collator
(`modelling.data.pad_seq2seq_data` is not in the materials) — right-pads every
input and target to the batch's maximum input length and stacks them in order;
an empty batch is an `EmptyBatch` condition, modelled as `none`. -/
def pad_seq2seq_data (batch : List (List Nat × List Nat)) :
    Option (List (List Nat) × List (List Nat)) :=
  if batch.isEmpty then none
  else
    some (batch.map (fun p => padTo (batchMaxLen batch) p.1),
          batch.map (fun p => padTo (batchMaxLen batch) p.2))

/-- Modelled from the spec: the record returned by `make_sequence_datasets`. -/
structure SequenceDatasets where
  train_data : FilmReviewSequences
  val_data : FilmReviewSequences
  test_data : FilmReviewSequences
  tokenizer : IMDBTokenizer

/-- Modelled from the spec: size of the validation partition — the floor of
the corpus size times the validation fraction. -/
def splitValSize (n : Nat) (rv : ℚ) : Nat :=
  ⌊(n : ℚ) * rv⌋₊

/-- Modelled from the spec: size of the test partition — the floor of the
corpus size times the test fraction. -/
def splitTestSize (n : Nat) (rte : ℚ) : Nat :=
  ⌊(n : ℚ) * rte⌋₊

/-- Modelled from the spec: size of the training partition — whatever remains
of the corpus once the validation and test partitions are taken, so the
rounding remainder is assigned to training. -/
def splitTrainSize (n : Nat) (rv rte : ℚ) : Nat :=
  n - splitValSize n rv - splitTestSize n rte

/-- Modelled from the spec: the single tokenizer fitted on the training
portion of the corpus. -/
def corpusTokenizer (corpus : List String) (rv rte : ℚ) : IMDBTokenizer :=
  IMDBTokenizer.fit (corpus.take (splitTrainSize corpus.length rv rte))

/-- Modelled from the spec: every document of the corpus encoded with the one
shared tokenizer. -/
def encodedCorpus (corpus : List String) (rv rte : ℚ) : List (List Nat) :=
  corpus.map (corpusTokenizer corpus rv rte).encode

/-- Modelled from the spec: the train/validation/test datasets plus the shared
tokenizer, built by contiguous splitting of the encoded corpus. -/
def mkDatasets (corpus : List String) (rv rte : ℚ) : SequenceDatasets :=
  ⟨⟨(encodedCorpus corpus rv rte).take (splitTrainSize corpus.length rv rte)⟩,
   ⟨((encodedCorpus corpus rv rte).drop
       (splitTrainSize corpus.length rv rte)).take
      (splitValSize corpus.length rv)⟩,
   ⟨((encodedCorpus corpus rv rte).drop
       (splitTrainSize corpus.length rv rte)).drop
      (splitValSize corpus.length rv)⟩,
   corpusTokenizer corpus rv rte⟩

/-- Modelled from the spec: `make_sequence_datasets`
(`modelling.data.make_sequence_datasets` is not in the materials) —
partitions the corpus into train/validation/test by the given fractions `rt`,
`rv`, `rte`, fits one tokenizer on the training portion, and encodes every
document with it.  The validation and test partitions take the floor of their
fractional sizes and the rounding remainder goes to the training partition.
An empty corpus (`EmptyCorpus`) or negative fractions or fractions summing to
more than 1 (`InvalidSplit`) are modelled as `none`. -/
def make_sequence_datasets (corpus : List String) (rt rv rte : ℚ) :
    Option SequenceDatasets :=
  if corpus.isEmpty then none
  else if 0 ≤ rt ∧ 0 ≤ rv ∧ 0 ≤ rte ∧ rt + rv + rte ≤ 1 then
    some (mkDatasets corpus rv rte)
  else none

/-! ### Helper lemmas -/

theorem le_foldr_max {l : List Nat} {x : Nat} (h : x ∈ l) : x ≤ l.foldr max 0 := by
  induction l with
  | nil => cases h
  | cons a t ih =>
    rcases List.mem_cons.mp h with rfl | hmem
    · exact Nat.le_max_left _ _
    · exact le_trans (ih hmem) (Nat.le_max_right _ _)

theorem foldr_max_mem {l : List Nat} (h : l ≠ []) : l.foldr max 0 ∈ l := by
  induction l with
  | nil => exact absurd rfl h
  | cons a t ih =>
    rcases eq_or_ne t [] with rfl | ht
    · simp
    · rcases Nat.le_total a (t.foldr max 0) with h1 | h1
      · rw [List.foldr_cons, Nat.max_eq_right h1]
        exact List.mem_cons_of_mem _ (ih ht)
      · rw [List.foldr_cons, Nat.max_eq_left h1]
        exact List.mem_cons_self _ _

theorem vocabIds_lookup_not_mem {v : List String} {w : String} (h : w ∉ v) :
    ∀ n, (vocabIds v n).lookup w = none := by
  induction v with
  | nil => intro n; rfl
  | cons a t ih =>
    intro n
    have hne : w ≠ a := fun hwa => h (by simp [hwa])
    have hbeq : (w == a) = false := beq_eq_false_iff_ne.mpr hne
    rw [vocabIds, List.lookup_cons]
    simp only [hbeq]
    exact ih (fun hw => h (List.mem_cons_of_mem _ hw)) (n + 1)

theorem vocabIds_lookup_mem {v : List String} {w : String} (h : w ∈ v) :
    ∀ n, ∃ j, (vocabIds v n).lookup w = some (n + j) ∧ v[j]? = some w := by
  induction v with
  | nil => cases h
  | cons a t ih =>
    intro n
    by_cases hwa : w = a
    · subst hwa
      refine ⟨0, ?_, by simp⟩
      rw [vocabIds, List.lookup_cons]
      simp
    · have hmem : w ∈ t := (List.mem_cons.mp h).resolve_left hwa
      have hbeq : (w == a) = false := beq_eq_false_iff_ne.mpr hwa
      obtain ⟨j, hj1, hj2⟩ := ih hmem (n + 1)
      refine ⟨j + 1, ?_, by simpa using hj2⟩
      rw [vocabIds, List.lookup_cons]
      simp only [hbeq]
      rw [hj1]
      congr 1
      omega

theorem wordToId_of_not_mem (t : IMDBTokenizer) {w : String} (h : w ∉ t.vocab) :
    t.wordToId w = unknown_id := by
  unfold IMDBTokenizer.wordToId
  rw [vocabIds_lookup_not_mem h 0]

theorem wordToId_mem_getElem (t : IMDBTokenizer) {w : String} (h : w ∈ t.vocab) :
    t.vocab[t.wordToId w]? = some w := by
  obtain ⟨j, hj1, hj2⟩ := vocabIds_lookup_mem h 0
  have hid : t.wordToId w = j := by
    unfold IMDBTokenizer.wordToId
    rw [hj1]
    simp
  rw [hid]
  exact hj2

theorem wordToId_lt (t : IMDBTokenizer) {w : String} (h : w ∈ t.vocab) :
    t.wordToId w < t.vocab_size := by
  obtain ⟨hlt, -⟩ := List.getElem?_eq_some_iff.mp (wordToId_mem_getElem t h)
  exact hlt

theorem padTo_length {len : Nat} {s : List Nat} (h : s.length ≤ len) :
    (padTo len s).length = len := by
  simp only [padTo, List.length_append, List.length_replicate]
  omega

theorem fitVocab_nodup (corpus : List String) : (fitVocab corpus).Nodup := by
  unfold fitVocab
  have hcand :=
    ((List.nodup_dedup (corpusWords corpus)).filter
      (fun w => (w != padToken) && (w != unkToken)))
  have hsort :
      (((corpusWords corpus).dedup.filter
          (fun w => (w != padToken) && (w != unkToken))).insertionSort
        (vocabLe (corpusWords corpus))).Nodup :=
    ((List.perm_insertionSort _ _).nodup_iff).mpr hcand
  refine List.nodup_cons.mpr ⟨?_, List.nodup_cons.mpr ⟨?_, hsort⟩⟩
  · intro hmem
    rcases List.mem_cons.mp hmem with heq | hmem2
    · exact absurd heq (by decide)
    · have h2 := List.mem_filter.mp ((List.mem_insertionSort _).mp hmem2)
      simp at h2
  · intro hmem
    have h2 := List.mem_filter.mp ((List.mem_insertionSort _).mp hmem)
    simp at h2

theorem fit_vocab_size_ge_two (corpus : List String) :
    2 ≤ (IMDBTokenizer.fit corpus).vocab_size := by
  simp [IMDBTokenizer.fit, IMDBTokenizer.vocab_size, fitVocab]

theorem fit_vocab_getD_unknown (corpus : List String) :
    (IMDBTokenizer.fit corpus).vocab.getD unknown_id "" = unkToken := by
  simp [IMDBTokenizer.fit, fitVocab, unknown_id]

/-! ### Claim theorems -/

/-- C1: for every Token Sequence of length `L ≥ 2` stored in a Sequence
Dataset, `get(index)` returns an `(input, target)` pair with
`input = sequence[0 : L-1]`, `target = sequence[1 : L]`, both of length
`L - 1`, and `target[i] = input[i+1]` for every valid `i`. -/
theorem get_shifted_pair (ds : FilmReviewSequences) (idx : Nat) (s : List Nat)
    (hs : ds.sequences[idx]? = some s) (hL : 2 ≤ s.length) :
    ∃ inp tgt, ds.get idx = some (inp, tgt) ∧
      inp = s.take (s.length - 1) ∧ tgt = s.drop 1 ∧
      inp.length = s.length - 1 ∧ tgt.length = s.length - 1 ∧
      ∀ k, k + 1 < s.length - 1 → tgt[k]? = inp[k + 1]? := by
  refine ⟨s.take (s.length - 1), s.drop 1, ?_, rfl, rfl, ?_, ?_, ?_⟩
  · unfold FilmReviewSequences.get
    rw [hs]
  · rw [List.length_take]
    omega
  · rw [List.length_drop]
  · intro k hk
    rw [List.getElem?_drop, List.getElem?_take_of_lt hk]
    congr 1
    omega

/-- Witness for C1 at a concrete dataset holding one sequence of length 4. -/
theorem get_shifted_pair_witness :
    ∃ inp tgt,
      (FilmReviewSequences.mk [[5, 6, 7, 8]]).get 0 = some (inp, tgt) ∧
      inp = [5, 6, 7, 8].take ([5, 6, 7, 8].length - 1) ∧
      tgt = [5, 6, 7, 8].drop 1 ∧
      inp.length = [5, 6, 7, 8].length - 1 ∧
      tgt.length = [5, 6, 7, 8].length - 1 ∧
      ∀ k, k + 1 < [5, 6, 7, 8].length - 1 → tgt[k]? = inp[k + 1]? :=
  get_shifted_pair (FilmReviewSequences.mk [[5, 6, 7, 8]]) 0 [5, 6, 7, 8]
    (by decide) (by decide)

/-- C8: `get(index)` fails (returns `none`, the `IndexOutOfRange` condition)
exactly when `index` is outside `[0, length())`, and for an index in range
returns the `(input, target)` pair of the document stored at that index. -/
theorem get_index_spec (ds : FilmReviewSequences) (idx : Nat) :
    (ds.get idx = none ↔ ¬ idx < ds.length) ∧
    ∀ s, ds.sequences[idx]? = some s →
      ds.get idx = some (s.take (s.length - 1), s.drop 1) := by
  have hmain : ∀ s, ds.sequences[idx]? = some s →
      ds.get idx = some (s.take (s.length - 1), s.drop 1) := by
    intro s hs
    unfold FilmReviewSequences.get
    rw [hs]
  refine ⟨?_, hmain⟩
  cases h : ds.sequences[idx]? with
  | some s =>
    obtain ⟨hlt, -⟩ := List.getElem?_eq_some_iff.mp h
    constructor
    · intro hnone
      rw [hmain s h] at hnone
      cases hnone
    · intro hc
      exact absurd hlt hc
  | none =>
    have hge : ds.sequences.length ≤ idx := List.getElem?_eq_none_iff.mp h
    constructor
    · intro _
      exact Nat.not_lt.mpr hge
    · intro _
      unfold FilmReviewSequences.get
      rw [h]

/-- Witness for C8: an out-of-range index fails, an in-range index returns the
stored document's pair. -/
theorem get_index_spec_witness :
    (FilmReviewSequences.mk [[1, 2, 3]]).get 2 = none ∧
    (FilmReviewSequences.mk [[1, 2, 3]]).get 0 =
      some ([1, 2, 3].take ([1, 2, 3].length - 1), [1, 2, 3].drop 1) :=
  ⟨(get_index_spec (FilmReviewSequences.mk [[1, 2, 3]]) 2).1.mpr (by decide),
   (get_index_spec (FilmReviewSequences.mk [[1, 2, 3]]) 0).2 [1, 2, 3] (by decide)⟩

/-- C7: `decode` fails (returns `none`, the `InvalidTokenId` condition)
exactly when its input contains an id outside `[0, vocab_size)` (ids are
naturals, so only the upper bound binds), and for in-range ids returns the
corresponding words joined with single spaces. -/
theorem decode_spec (t : IMDBTokenizer) (ids : List Nat) :
    (t.decode ids = none ↔ ∃ i ∈ ids, t.vocab_size ≤ i) ∧
    ((∀ i ∈ ids, i < t.vocab_size) →
      t.decode ids =
        some (String.intercalate " " (ids.map (fun i => t.vocab.getD i "")))) := by
  constructor
  · constructor
    · intro hnone
      by_contra hex
      push_neg at hex
      unfold IMDBTokenizer.decode at hnone
      rw [if_pos hex] at hnone
      cases hnone
    · rintro ⟨i, hi, hle⟩
      unfold IMDBTokenizer.decode
      rw [if_neg (fun hall => absurd (hall i hi) (Nat.not_lt.mpr hle))]
  · intro h
    unfold IMDBTokenizer.decode
    rw [if_pos h]

/-- Witness for C7 at a concrete three-word vocabulary: an out-of-range id
fails, in-range ids decode to joined words. -/
theorem decode_spec_witness :
    (IMDBTokenizer.mk ["<pad>", "<unk>", "film"]).decode [3] = none ∧
    (IMDBTokenizer.mk ["<pad>", "<unk>", "film"]).decode [2, 1] =
      some (String.intercalate " " ([2, 1].map (fun i =>
        (IMDBTokenizer.mk ["<pad>", "<unk>", "film"]).vocab.getD i ""))) :=
  ⟨(decode_spec (IMDBTokenizer.mk ["<pad>", "<unk>", "film"]) [3]).1.mpr
      ⟨3, by decide, by decide⟩,
   (decode_spec (IMDBTokenizer.mk ["<pad>", "<unk>", "film"]) [2, 1]).2
      (by decide)⟩

/-- C5: fitting the Tokenizer twice on the identical corpus yields identical
`vocab_size` and an identical word-to-id assignment for every word. -/
theorem fit_deterministic (c₁ c₂ : List String) (h : c₁ = c₂) :
    (IMDBTokenizer.fit c₁).vocab_size = (IMDBTokenizer.fit c₂).vocab_size ∧
    ∀ w, (IMDBTokenizer.fit c₁).wordToId w = (IMDBTokenizer.fit c₂).wordToId w := by
  subst h
  exact ⟨rfl, fun _ => rfl⟩

/-- Witness for C5 at a concrete two-document corpus. -/
theorem fit_deterministic_witness :
    (IMDBTokenizer.fit ["good film", "bad film"]).vocab_size =
      (IMDBTokenizer.fit ["good film", "bad film"]).vocab_size ∧
    ∀ w, (IMDBTokenizer.fit ["good film", "bad film"]).wordToId w =
      (IMDBTokenizer.fit ["good film", "bad film"]).wordToId w :=
  fit_deterministic ["good film", "bad film"] ["good film", "bad film"] rfl

/-- C2: for every non-empty batch of Sequence Pairs, `collate` computes
`max_len` as the maximum input length, right-pads every input and target
independently to `max_len` with the padding id (never truncating — each padded
row begins with the original sequence), and stacks them into two rectangular
`batch_size × max_len` tables whose row order equals the input pair order. -/
theorem pad_collate_spec (batch : List (List Nat × List Nat))
    (hne : batch ≠ []) (hpair : ∀ p ∈ batch, p.2.length = p.1.length) :
    ∃ xs ys, pad_seq2seq_data batch = some (xs, ys) ∧
      xs = batch.map (fun p => padTo (batchMaxLen batch) p.1) ∧
      ys = batch.map (fun p => padTo (batchMaxLen batch) p.2) ∧
      xs.length = batch.length ∧ ys.length = batch.length ∧
      (∀ p ∈ batch, p.1.length ≤ batchMaxLen batch) ∧
      (∃ p ∈ batch, p.1.length = batchMaxLen batch) ∧
      (∀ row ∈ xs, row.length = batchMaxLen batch) ∧
      (∀ row ∈ ys, row.length = batchMaxLen batch) ∧
      (∀ p ∈ batch,
        (padTo (batchMaxLen batch) p.1).take p.1.length = p.1 ∧
        (padTo (batchMaxLen batch) p.2).take p.2.length = p.2) := by
  have hbound : ∀ p ∈ batch, p.1.length ≤ batchMaxLen batch := by
    intro p hp
    exact le_foldr_max (List.mem_map_of_mem _ hp)
  have hmax : ∃ p ∈ batch, p.1.length = batchMaxLen batch := by
    have hmapne : batch.map (fun p => p.1.length) ≠ [] := by
      simpa using hne
    obtain ⟨p, hp, hpl⟩ := List.mem_map.mp (foldr_max_mem hmapne)
    exact ⟨p, hp, hpl⟩
  refine ⟨_, _, ?_, rfl, rfl, List.length_map _ _, List.length_map _ _,
    hbound, hmax, ?_, ?_, ?_⟩
  · unfold pad_seq2seq_data
    rw [if_neg (by simpa using hne)]
  · intro row hrow
    obtain ⟨p, hp, rfl⟩ := List.mem_map.mp hrow
    exact padTo_length (hbound p hp)
  · intro row hrow
    obtain ⟨p, hp, rfl⟩ := List.mem_map.mp hrow
    exact padTo_length (le_of_eq_of_le (hpair p hp) (hbound p hp))
  · intro p _
    exact ⟨List.take_left' rfl, List.take_left' rfl⟩

/-- Witness for C2 at a concrete two-pair batch with input lengths 3 and 1. -/
theorem pad_collate_spec_witness :
    ∃ xs ys,
      pad_seq2seq_data [([1, 2, 3], [2, 3, 4]), ([7], [8])] = some (xs, ys) ∧
      xs = [([1, 2, 3], [2, 3, 4]), ([7], [8])].map
        (fun p => padTo (batchMaxLen [([1, 2, 3], [2, 3, 4]), ([7], [8])]) p.1) ∧
      ys = [([1, 2, 3], [2, 3, 4]), ([7], [8])].map
        (fun p => padTo (batchMaxLen [([1, 2, 3], [2, 3, 4]), ([7], [8])]) p.2) ∧
      xs.length = [([1, 2, 3], [2, 3, 4]), ([7], [8])].length ∧
      ys.length = [([1, 2, 3], [2, 3, 4]), ([7], [8])].length ∧
      (∀ p ∈ [([1, 2, 3], [2, 3, 4]), ([7], [8])],
        p.1.length ≤ batchMaxLen [([1, 2, 3], [2, 3, 4]), ([7], [8])]) ∧
      (∃ p ∈ [([1, 2, 3], [2, 3, 4]), ([7], [8])],
        p.1.length = batchMaxLen [([1, 2, 3], [2, 3, 4]), ([7], [8])]) ∧
      (∀ row ∈ xs,
        row.length = batchMaxLen [([1, 2, 3], [2, 3, 4]), ([7], [8])]) ∧
      (∀ row ∈ ys,
        row.length = batchMaxLen [([1, 2, 3], [2, 3, 4]), ([7], [8])]) ∧
      (∀ p ∈ [([1, 2, 3], [2, 3, 4]), ([7], [8])],
        (padTo (batchMaxLen [([1, 2, 3], [2, 3, 4]), ([7], [8])]) p.1).take
            p.1.length = p.1 ∧
        (padTo (batchMaxLen [([1, 2, 3], [2, 3, 4]), ([7], [8])]) p.2).take
            p.2.length = p.2) :=
  pad_collate_spec [([1, 2, 3], [2, 3, 4]), ([7], [8])] (by decide) (by decide)

/-- C3: for every corpus of `N ≥ 1` documents and valid split fractions,
`make_sequence_datasets` produces train, validation and test partitions whose
sizes sum to `N` exactly, with the rounding remainder assigned to the
training partition. -/
theorem make_sequence_datasets_sizes (corpus : List String) (rt rv rte : ℚ)
    (hN : 1 ≤ corpus.length) (hrt : 0 ≤ rt) (hrv : 0 ≤ rv) (hrte : 0 ≤ rte)
    (hsum : rt + rv + rte ≤ 1) :
    ∃ ds, make_sequence_datasets corpus rt rv rte = some ds ∧
      ds.val_data.length = splitValSize corpus.length rv ∧
      ds.test_data.length = splitTestSize corpus.length rte ∧
      ds.train_data.length =
        corpus.length - ds.val_data.length - ds.test_data.length ∧
      ds.train_data.length + ds.val_data.length + ds.test_data.length =
        corpus.length := by
  have hvle : ((splitValSize corpus.length rv : ℚ)) ≤ (corpus.length : ℚ) * rv :=
    Nat.floor_le (mul_nonneg (Nat.cast_nonneg _) hrv)
  have htle : ((splitTestSize corpus.length rte : ℚ)) ≤ (corpus.length : ℚ) * rte :=
    Nat.floor_le (mul_nonneg (Nat.cast_nonneg _) hrte)
  have hfr : (corpus.length : ℚ) * rv + (corpus.length : ℚ) * rte ≤
      (corpus.length : ℚ) := by
    have h1 : rv + rte ≤ 1 := by linarith
    have h2 : (corpus.length : ℚ) * (rv + rte) ≤ (corpus.length : ℚ) * 1 :=
      mul_le_mul_of_nonneg_left h1 (Nat.cast_nonneg _)
    nlinarith
  have hcast : ((splitValSize corpus.length rv +
      splitTestSize corpus.length rte : Nat) : ℚ) ≤ (corpus.length : ℚ) := by
    push_cast
    linarith
  have hle : splitValSize corpus.length rv + splitTestSize corpus.length rte ≤
      corpus.length := by
    exact_mod_cast hcast
  have hne : ¬ corpus.isEmpty = true := by
    intro hempty
    rw [List.isEmpty_iff.mp hempty] at hN
    exact absurd hN (by decide)
  refine ⟨mkDatasets corpus rv rte, ?_, ?_, ?_, ?_, ?_⟩
  · unfold make_sequence_datasets
    rw [if_neg hne, if_pos ⟨hrt, hrv, hrte, hsum⟩]
  · simp only [mkDatasets, FilmReviewSequences.length, List.length_take,
      List.length_drop, encodedCorpus, List.length_map, splitTrainSize]
    omega
  · simp only [mkDatasets, FilmReviewSequences.length, List.length_take,
      List.length_drop, encodedCorpus, List.length_map, splitTrainSize]
    omega
  · simp only [mkDatasets, FilmReviewSequences.length, List.length_take,
      List.length_drop, encodedCorpus, List.length_map, splitTrainSize]
    omega
  · simp only [mkDatasets, FilmReviewSequences.length, List.length_take,
      List.length_drop, encodedCorpus, List.length_map, splitTrainSize]
    omega

/-- Witness for C3 at a concrete three-document corpus with fractions
`(1, 0, 0)`. -/
theorem make_sequence_datasets_sizes_witness :
    ∃ ds, make_sequence_datasets ["a", "b", "c"] 1 0 0 = some ds ∧
      ds.val_data.length = splitValSize (["a", "b", "c"] : List String).length 0 ∧
      ds.test_data.length = splitTestSize (["a", "b", "c"] : List String).length 0 ∧
      ds.train_data.length =
        (["a", "b", "c"] : List String).length - ds.val_data.length -
          ds.test_data.length ∧
      ds.train_data.length + ds.val_data.length + ds.test_data.length =
        (["a", "b", "c"] : List String).length :=
  make_sequence_datasets_sizes ["a", "b", "c"] 1 0 0 (by decide) zero_le_one
    le_rfl le_rfl (by simp)

/-- C4: for every document, decoding its encoding reproduces the document's
word sequence under the splitting rule, with every out-of-vocabulary word
replaced by the unknown-token placeholder (lossy round-trip). -/
theorem decode_encode_round_trip (corpus : List String) (d : String) :
    (IMDBTokenizer.fit corpus).decode ((IMDBTokenizer.fit corpus).encode d) =
      some (String.intercalate " " ((tokenize d).map (fun w =>
        if w ∈ (IMDBTokenizer.fit corpus).vocab then w else unkToken))) := by
  have hbound : ∀ i ∈ (IMDBTokenizer.fit corpus).encode d,
      i < (IMDBTokenizer.fit corpus).vocab_size := by
    intro i hi
    unfold IMDBTokenizer.encode at hi
    obtain ⟨w, hw, rfl⟩ := List.mem_map.mp hi
    by_cases hmem : w ∈ (IMDBTokenizer.fit corpus).vocab
    · exact wordToId_lt _ hmem
    · rw [wordToId_of_not_mem _ hmem]
      have h2 := fit_vocab_size_ge_two corpus
      unfold unknown_id
      omega
  unfold IMDBTokenizer.decode
  rw [if_pos hbound]
  congr 1
  unfold IMDBTokenizer.encode
  rw [List.map_map]
  congr 1
  apply List.map_congr_left
  intro w hw
  by_cases hmem : w ∈ (IMDBTokenizer.fit corpus).vocab
  · simp only [Function.comp_apply, if_pos hmem]
    rw [List.getD_eq_getElem?_getD, wordToId_mem_getElem _ hmem]
    rfl
  · simp only [Function.comp_apply, if_neg hmem]
    rw [wordToId_of_not_mem _ hmem]
    exact fit_vocab_getD_unknown corpus

/-- C6: `encode` is total on raw documents and maps the word at every position
to its vocabulary id when the word is in the vocabulary (the id the vocabulary
assigns back to that very word) and to the reserved unknown-token id
otherwise. -/
theorem encode_total_spec (corpus : List String) (d : String) :
    ((IMDBTokenizer.fit corpus).encode d).length = (tokenize d).length ∧
    ∀ (k : Nat) (w : String), (tokenize d)[k]? = some w →
      (w ∈ (IMDBTokenizer.fit corpus).vocab →
        ((IMDBTokenizer.fit corpus).encode d)[k]? =
          some ((IMDBTokenizer.fit corpus).wordToId w) ∧
        (IMDBTokenizer.fit corpus).vocab[(IMDBTokenizer.fit corpus).wordToId w]? =
          some w) ∧
      (w ∉ (IMDBTokenizer.fit corpus).vocab →
        ((IMDBTokenizer.fit corpus).encode d)[k]? = some unknown_id) := by
  constructor
  · unfold IMDBTokenizer.encode
    exact List.length_map _ _
  · intro k w hkw
    have hk : ((IMDBTokenizer.fit corpus).encode d)[k]? =
        some ((IMDBTokenizer.fit corpus).wordToId w) := by
      unfold IMDBTokenizer.encode
      rw [List.getElem?_map, hkw]
      rfl
    constructor
    · intro hmem
      exact ⟨hk, wordToId_mem_getElem _ hmem⟩
    · intro hmem
      rw [hk, wordToId_of_not_mem _ hmem]

/-- Witness for C6 at a concrete corpus and document. -/
theorem encode_total_spec_witness :
    ((IMDBTokenizer.fit ["good film"]).encode "good day").length =
      (tokenize "good day").length ∧
    ∀ (k : Nat) (w : String), (tokenize "good day")[k]? = some w →
      (w ∈ (IMDBTokenizer.fit ["good film"]).vocab →
        ((IMDBTokenizer.fit ["good film"]).encode "good day")[k]? =
          some ((IMDBTokenizer.fit ["good film"]).wordToId w) ∧
        (IMDBTokenizer.fit
            ["good film"]).vocab[(IMDBTokenizer.fit ["good film"]).wordToId w]? =
          some w) ∧
      (w ∉ (IMDBTokenizer.fit ["good film"]).vocab →
        ((IMDBTokenizer.fit ["good film"]).encode "good day")[k]? =
          some unknown_id) :=
  encode_total_spec ["good film"] "good day"

/-- C9: after `fit`, the vocabulary is a bijection between words and ids on
`[0, vocab_size)`: equal ids at two in-range positions coincide, and every
vocabulary word is stored at exactly one id.  In this embedding every
operation is a pure function of an immutable tokenizer value, so no operation
can change the vocabulary. -/
theorem tokenizer_vocab_bijective (corpus : List String) :
    (∀ i j, i < (IMDBTokenizer.fit corpus).vocab_size →
      j < (IMDBTokenizer.fit corpus).vocab_size →
      (IMDBTokenizer.fit corpus).vocab[i]? =
        (IMDBTokenizer.fit corpus).vocab[j]? →
      i = j) ∧
    ∀ w ∈ (IMDBTokenizer.fit corpus).vocab,
      ∃! i : Nat, (IMDBTokenizer.fit corpus).vocab[i]? = some w := by
  have hnodup : (IMDBTokenizer.fit corpus).vocab.Nodup := fitVocab_nodup corpus
  constructor
  · intro i j hi _ hij
    exact List.getElem?_inj hi hnodup hij
  · intro w hw
    obtain ⟨i, hi⟩ := List.mem_iff_getElem?.mp hw
    refine ⟨i, hi, ?_⟩
    intro j hj
    obtain ⟨hjlt, -⟩ := List.getElem?_eq_some_iff.mp hj
    exact List.getElem?_inj hjlt hnodup (hj.trans hi.symm)

/-- Witness for C9: in the vocabulary fitted on a one-document corpus, the
unknown token is stored at exactly one id. -/
theorem tokenizer_vocab_bijective_witness :
    ∃! i : Nat, (IMDBTokenizer.fit ["a"]).vocab[i]? = some unkToken :=
  (tokenizer_vocab_bijective ["a"]).2 unkToken
    (List.mem_cons_of_mem _ (List.mem_cons_self _ _))

end LMExp
